import Mathlib

/-!
Shallow embedding of the dv1580_a2 memory pool allocator
(`src/memory_manager.c`) and the linked list built on it
(`src/linked_list.c`), together with theorems settling the frozen
claims about the specification.

The pool is modelled by byte offsets: a block descriptor carries its
offset into the pool (`ptr`), its `size` in bytes and its free flag;
the `next` pointer of the C struct is modelled by list order, so the
descriptor chain is a `List Block`.  Pool memory contents are a total
function from offsets to byte values.  The pthread mutexes only
serialise calls and are elided in this sequential embedding; each
C function's body is translated as the pure state transformer it
performs between lock and unlock.
-/

namespace MM

/-- One block descriptor (`struct memory_block` in `memory_manager.c`):
offset into the pool, size in bytes, free flag.  The `next` field of the
C struct is represented by the position in the chain list. -/
structure Block where
  ptr : Nat
  size : Nat
  free : Bool
deriving DecidableEq, Repr

/-- The descriptor chain headed by the C global `first_block`. -/
abbrev Chain := List Block

/-- Pool memory contents, byte value at each offset. -/
abbrev Mem := Nat → Nat

/-- `make_block` in `memory_manager.c`: builds a descriptor from its
fields (the `next` argument is the tail of the chain at the insertion
point). -/
def make_block (p s : Nat) (f : Bool) : Block := ⟨p, s, f⟩

/-- `mem_init(size)`: one descriptor spanning the whole pool, free.
The pool base address is offset 0. -/
def mem_init (size : Nat) : Chain := [make_block 0 size true]

/-- `no_lock_alloc(size)` from `memory_manager.c`: walk the chain; at the
first descriptor that is free and at least `n` bytes, mark it used,
truncate it to `n`, insert a new free descriptor for the leftover bytes
right after it, and return its offset; otherwise return NULL (`none`). -/
def no_lock_alloc (n : Nat) : Chain → Option Nat × Chain
  | [] => (none, [])
  | b :: rest =>
    if b.free ∧ n ≤ b.size then
      (some b.ptr, make_block b.ptr n false :: make_block (b.ptr + n) (b.size - n) true :: rest)
    else
      let r := no_lock_alloc n rest
      (r.1, b :: r.2)

/-- `mem_alloc`: lock, `no_lock_alloc`, unlock. -/
def mem_alloc (n : Nat) (c : Chain) : Option Nat × Chain := no_lock_alloc n c

/-- `no_lock_free(block)` from `memory_manager.c`: find the first
descriptor whose offset equals the argument, mark it free and, if its
successor exists and is free, absorb the successor (sum the sizes and
splice it out).  If no descriptor matches, the chain is returned
unchanged (the C function just falls off the loop). -/
def no_lock_free (a : Nat) : Chain → Chain
  | [] => []
  | b :: rest =>
    if b.ptr = a then
      match rest with
      | b2 :: rest2 =>
        if b2.free then make_block b.ptr (b.size + b2.size) true :: rest2
        else make_block b.ptr b.size true :: rest
      | [] => [make_block b.ptr b.size true]
    else
      b :: no_lock_free a rest

/-- `mem_free`: lock, `no_lock_free`, unlock. -/
def mem_free (a : Nat) (c : Chain) : Chain := no_lock_free a c

/-- The search loop at the top of `mem_resize`: first descriptor whose
offset equals the argument, or `none` when the loop falls off the end. -/
def findBlock (a : Nat) : Chain → Option Block
  | [] => none
  | b :: rest => if b.ptr = a then some b else findBlock a rest

/-- `memcpy(dest, src, n)` on the pool memory. -/
def memcpy (dest src n : Nat) (m : Mem) : Mem :=
  fun x => if dest ≤ x ∧ x < dest + n then m (src + (x - dest)) else m x

/-- `mem_resize(block, size)` from `memory_manager.c`.  The C code scans
for the descriptor of `block`; when the scan fails it dereferences the
null `current_block` pointer — modelled as `Except.error ()`.  When the
found descriptor already has `size ≤ current_block->size` the same
address is returned with no mutation.  Otherwise `no_lock_alloc` runs on
the current chain; on success the old descriptor's size worth of bytes
is copied to the new offset and the old offset is freed; on failure the
NULL result (`none`) is returned with no copy and no free. -/
def mem_resize (a n : Nat) (c : Chain) (m : Mem) :
    Except Unit (Option Nat × Chain × Mem) :=
  match findBlock a c with
  | none => .error ()
  | some b =>
    if n ≤ b.size then .ok (some a, c, m)
    else
      match no_lock_alloc n c with
      | (some p, c2) => .ok (some p, no_lock_free a c2, memcpy p a b.size m)
      | (none, c2) => .ok (none, c2, m)

/-- Models `sizeof(Node)` for `struct Node { uint16_t data; Node* next; }`
on an LP64 platform: 2 payload bytes padded to the 8-byte pointer
alignment, plus the 8-byte next pointer. -/
def sizeofNode : Nat := 16

/-- `list_insert` from `linked_list.c`.  The list itself is the sequence
of payloads in head-to-tail order; appending at the end models the walk
to the last node.  The C code stores through the `mem_alloc` result
without checking it, so a NULL result is dereferenced — modelled as
`Except.error ()`. -/
def list_insert (c : Chain) (l : List Nat) (v : Nat) :
    Except Unit (Chain × List Nat) :=
  match mem_alloc sizeofNode c with
  | (none, _) => .error ()
  | (some _, c2) => .ok (c2, l ++ [v])

/-- `list_search` from `linked_list.c`: walk the payload sequence and
return (the index of) the first node whose payload equals `v`, together
with the console output produced; the not-found path prints
"data not in list" and returns NULL (`none`). -/
def list_search : List Nat → Nat → Option Nat × List String
  | [], _ => (none, ["data not in list"])
  | x :: rest, v =>
    if x = v then (some 0, [])
    else
      let r := list_search rest v
      (r.1.map (· + 1), r.2)

/-- Sum of the sizes of all descriptors in a chain. -/
def sumSizes (c : Chain) : Nat := (c.map Block.size).sum

/-- The chain is byte-contiguous starting at offset `o`: each descriptor
starts exactly where the previous one ends. -/
def contiguousFrom : Nat → Chain → Prop
  | _, [] => True
  | o, b :: rest => b.ptr = o ∧ contiguousFrom (o + b.size) rest

/-- Pool states reachable from `mem_init psize` by any sequence of
allocate and free calls. -/
inductive Reach (psize : Nat) : Chain → Prop
  | init : Reach psize (mem_init psize)
  | alloc (n : Nat) {c : Chain} : Reach psize c → Reach psize (no_lock_alloc n c).2
  | memfree (a : Nat) {c : Chain} : Reach psize c → Reach psize (no_lock_free a c)

/-- Chain component of a `mem_resize` result, for stating concrete facts. -/
def exChain (e : Except Unit (Option Nat × Chain × Mem)) : Option Chain :=
  match e with
  | .ok (_, c, _) => some c
  | .error _ => none

/-- Address component of a `mem_resize` result. -/
def exAddr (e : Except Unit (Option Nat × Chain × Mem)) : Option (Option Nat) :=
  match e with
  | .ok (p, _, _) => some p
  | .error _ => none

/-- All-zero pool memory, used for concrete evaluations. -/
def m0 : Mem := fun _ => 0

/-- Allocation preserves byte-contiguity and the total of the
descriptor sizes. -/
theorem alloc_preserves (n : Nat) :
    ∀ (c : Chain) (o : Nat), contiguousFrom o c →
      contiguousFrom o (no_lock_alloc n c).2 ∧
      sumSizes (no_lock_alloc n c).2 = sumSizes c
  | [], o => by
    intro h
    exact ⟨h, rfl⟩
  | b :: rest, o => by
    intro h
    obtain ⟨hb, hrest⟩ := h
    by_cases hc : b.free ∧ n ≤ b.size
    · have hn : n ≤ b.size := hc.2
      refine ⟨?_, ?_⟩
      · simp only [no_lock_alloc, if_pos hc, contiguousFrom, make_block]
        refine ⟨hb, by omega, ?_⟩
        have : o + n + (b.size - n) = o + b.size := by omega
        rw [this]
        exact hrest
      · simp only [no_lock_alloc, if_pos hc, sumSizes, make_block, List.map_cons,
          List.sum_cons]
        omega
    · have ih := alloc_preserves n rest (o + b.size) hrest
      refine ⟨?_, ?_⟩
      · simp only [no_lock_alloc, if_neg hc, contiguousFrom]
        exact ⟨hb, ih.1⟩
      · simp only [no_lock_alloc, if_neg hc, sumSizes, List.map_cons, List.sum_cons]
        have := ih.2
        simp only [sumSizes] at this
        omega

/-- Freeing preserves byte-contiguity and the total of the descriptor
sizes (a merge replaces two adjacent descriptors by one of summed size). -/
theorem free_preserves (a : Nat) :
    ∀ (c : Chain) (o : Nat), contiguousFrom o c →
      contiguousFrom o (no_lock_free a c) ∧
      sumSizes (no_lock_free a c) = sumSizes c
  | [], o => by
    intro h
    exact ⟨h, rfl⟩
  | b :: rest, o => by
    intro h
    obtain ⟨hb, hrest⟩ := h
    by_cases hp : b.ptr = a
    · match rest, hrest with
      | [], _ =>
        refine ⟨?_, ?_⟩
        · simp only [no_lock_free, if_pos hp, contiguousFrom, make_block]
          exact ⟨hb, trivial⟩
        · simp only [no_lock_free, if_pos hp, sumSizes, make_block, List.map_cons]
      | b2 :: rest2, hrest =>
        obtain ⟨hb2, hrest2⟩ := hrest
        by_cases hf : b2.free
        · refine ⟨?_, ?_⟩
          · simp only [no_lock_free, if_pos hp, if_pos hf, contiguousFrom, make_block]
            refine ⟨hb, ?_⟩
            have : o + (b.size + b2.size) = o + b.size + b2.size := by omega
            rw [this]
            exact hrest2
          · simp only [no_lock_free, if_pos hp, if_pos hf, sumSizes, make_block,
              List.map_cons, List.sum_cons]
            omega
        · refine ⟨?_, ?_⟩
          · simp only [no_lock_free, if_pos hp, if_neg hf, contiguousFrom, make_block]
            exact ⟨hb, hb2, hrest2⟩
          · simp only [no_lock_free, if_pos hp, if_neg hf, sumSizes, make_block,
              List.map_cons, List.sum_cons]
    · have ih := free_preserves a rest (o + b.size) hrest
      refine ⟨?_, ?_⟩
      · simp only [no_lock_free, if_neg hp, contiguousFrom]
        exact ⟨hb, ih.1⟩
      · simp only [no_lock_free, if_neg hp, sumSizes, List.map_cons, List.sum_cons]
        have := ih.2
        simp only [sumSizes] at this
        omega

/-- In a chain that is contiguous from `o`, every descriptor starts at
offset at least `o`. -/
theorem contiguous_lower_bound :
    ∀ (c : Chain) (o : Nat), contiguousFrom o c → ∀ b ∈ c, o ≤ b.ptr
  | [], _ => by
    intro _ b hb
    simp at hb
  | x :: rest, o => by
    intro h b hb
    obtain ⟨hx, hrest⟩ := h
    rcases List.mem_cons.1 hb with h1 | h1
    · subst h1
      omega
    · have := contiguous_lower_bound rest (o + x.size) hrest b h1
      omega

/-- Byte-contiguity implies the descriptors are ordered and
non-overlapping, and that two descriptors can share an offset only when
the earlier one has size zero. -/
theorem contiguous_pairwise :
    ∀ (c : Chain) (o : Nat), contiguousFrom o c →
      List.Pairwise (fun x y => x.ptr + x.size ≤ y.ptr ∧ (0 < x.size → x.ptr ≠ y.ptr)) c
  | [], _ => by
    intro _
    exact List.Pairwise.nil
  | x :: rest, o => by
    intro h
    obtain ⟨hx, hrest⟩ := h
    refine List.Pairwise.cons ?_ (contiguous_pairwise rest (o + x.size) hrest)
    intro y hy
    have hbound := contiguous_lower_bound rest (o + x.size) hrest y hy
    exact ⟨by omega, by omega⟩

/-- C1 (amended): for every pool initialised with `mem_init psize` and
every sequence of allocate and free calls, the sum of the descriptor
sizes equals the pool's total size and the descriptors are
byte-contiguous and non-overlapping; any two descriptors of nonzero
size have distinct addresses (a zero-size descriptor produced by an
exact-fit allocation may share the address of its successor). -/
theorem C1_amended_invariant (psize : Nat) (c : Chain) (h : Reach psize c) :
    sumSizes c = psize ∧ contiguousFrom 0 c ∧
    List.Pairwise (fun x y => x.ptr + x.size ≤ y.ptr ∧ (0 < x.size → x.ptr ≠ y.ptr)) c := by
  have key : sumSizes c = psize ∧ contiguousFrom 0 c := by
    induction h with
    | init => simp [mem_init, sumSizes, contiguousFrom, make_block]
    | alloc n hr ih =>
      have step := alloc_preserves n _ 0 ih.2
      exact ⟨step.2.trans ih.1, step.1⟩
    | memfree a hr ih =>
      have step := free_preserves a _ 0 ih.2
      exact ⟨step.2.trans ih.1, step.1⟩
  exact ⟨key.1, key.2, contiguous_pairwise c 0 key.2⟩

/-- Witness for C1 (amended) at the pool of size 100 after one
allocation of 10 bytes. -/
theorem C1_amended_witness :
    sumSizes (no_lock_alloc 10 (mem_init 100)).2 = 100 ∧
    contiguousFrom 0 (no_lock_alloc 10 (mem_init 100)).2 ∧
    List.Pairwise (fun x y => x.ptr + x.size ≤ y.ptr ∧ (0 < x.size → x.ptr ≠ y.ptr))
      (no_lock_alloc 10 (mem_init 100)).2 :=
  C1_amended_invariant 100 (no_lock_alloc 10 (mem_init 100)).2
    (Reach.alloc 10 Reach.init)

/-- C1 (counterexample): after `init 100; alloc 10; alloc 10; free 0;
alloc 10` the last allocation is an exact fit of the freed block, whose
zero-size leftover descriptor shares address 10 with the used descriptor
that follows it — the chain is not pairwise address-distinct. -/
theorem C1_counterexample :
    ¬ List.Pairwise (fun x y => x.ptr ≠ y.ptr)
      ((no_lock_alloc 10 (no_lock_free 0
        (no_lock_alloc 10 (no_lock_alloc 10 (mem_init 100)).2).2)).2) := by decide

/-- When no descriptor is free with sufficient size, the scan falls off
the chain: NULL result and unchanged chain. -/
theorem alloc_no_fit (n : Nat) :
    ∀ (c : Chain), (∀ b ∈ c, ¬(b.free = true ∧ n ≤ b.size)) →
      no_lock_alloc n c = (none, c)
  | [] => fun _ => rfl
  | b :: rest => by
    intro h
    have hb : ¬(b.free = true ∧ n ≤ b.size) := h b (List.mem_cons_self b rest)
    have ih := alloc_no_fit n rest (fun x hx => h x (List.mem_cons_of_mem b hx))
    simp [no_lock_alloc, hb, ih]

/-- When position `i` holds the first free descriptor of sufficient
size, the scan stops there: the descriptor is truncated to `n` and
marked used, the leftover becomes a new free descriptor spliced in
before the old successor, and the descriptor's offset is returned. -/
theorem alloc_hit (n : Nat) :
    ∀ (ch : Chain) (i : Nat) (hi : i < ch.length), ch[i].free = true → n ≤ ch[i].size →
      (∀ (j : Nat) (hj : j < ch.length), j < i → ¬(ch[j].free = true ∧ n ≤ ch[j].size)) →
      no_lock_alloc n ch =
        (some ch[i].ptr,
         ch.take i ++ make_block ch[i].ptr n false ::
           make_block (ch[i].ptr + n) (ch[i].size - n) true :: ch.drop (i + 1))
  | [], i, hi => absurd hi (by simp)
  | b :: rest, 0, hi => by
    intro hfree hsize _
    simp only [List.getElem_cons_zero] at hfree hsize ⊢
    have hc : b.free = true ∧ n ≤ b.size := ⟨hfree, hsize⟩
    simp [no_lock_alloc, hc]
  | b :: rest, i + 1, hi => by
    intro hfree hsize hmin
    have h0 : ¬(b.free = true ∧ n ≤ b.size) := by
      have := hmin 0 (by simp) (Nat.succ_pos i)
      simpa using this
    simp only [List.getElem_cons_succ] at hfree hsize
    have hmin2 : ∀ (j : Nat) (hj : j < rest.length), j < i →
        ¬(rest[j].free = true ∧ n ≤ rest[j].size) := by
      intro j hj hji
      have := hmin (j + 1) (by simpa using Nat.succ_lt_succ hj) (Nat.succ_lt_succ hji)
      simpa using this
    have ih := alloc_hit n rest i (by simpa using hi) hfree hsize hmin2
    simp [no_lock_alloc, h0, ih]

/-- C2: `allocate` scans the chain in order and picks the first free
descriptor of sufficient size (first-fit); on a match it marks it used,
truncates it to the requested size, inserts a new free descriptor for
the leftover bytes between the match and the match's old successor and
returns the match's address; when no free descriptor of sufficient size
exists it returns the NULL/`AllocationExhausted` result and leaves the
chain unchanged. -/
theorem C2_first_fit (n : Nat) (ch : Chain) :
    ((∀ b ∈ ch, ¬(b.free = true ∧ n ≤ b.size)) → no_lock_alloc n ch = (none, ch)) ∧
    (∀ (i : Nat) (hi : i < ch.length), ch[i].free = true → n ≤ ch[i].size →
      (∀ (j : Nat) (hj : j < ch.length), j < i → ¬(ch[j].free = true ∧ n ≤ ch[j].size)) →
      no_lock_alloc n ch =
        (some ch[i].ptr,
         ch.take i ++ make_block ch[i].ptr n false ::
           make_block (ch[i].ptr + n) (ch[i].size - n) true :: ch.drop (i + 1))) :=
  ⟨alloc_no_fit n ch, fun i hi h1 h2 h3 => alloc_hit n ch i hi h1 h2 h3⟩

/-- Witness for C2: on a fresh pool of 100 bytes the first (only)
descriptor fits a request of 10 and is split accordingly. -/
theorem C2_first_fit_witness :
    no_lock_alloc 10 [⟨0, 100, true⟩] = (some 0, [⟨0, 10, false⟩, ⟨10, 90, true⟩]) := by
  have h := (C2_first_fit 10 [⟨0, 100, true⟩]).2 0 (by decide) rfl (by decide)
    (fun j hj hji => absurd hji (Nat.not_lt_zero j))
  simpa [make_block] using h

/-- C10: every successful allocation splices exactly one new free
descriptor after the match, so the chain grows by exactly one
descriptor; its size is the matched descriptor's old size minus the
request — zero on an exact fit, and that zero-length free descriptor
stays in the chain. -/
theorem C10_split_always (n : Nat) :
    ∀ (c : Chain) (a : Nat), (no_lock_alloc n c).1 = some a →
      ((no_lock_alloc n c).2.length = c.length + 1 ∧
       ∃ b ∈ c, b.ptr = a ∧ b.free = true ∧ n ≤ b.size ∧
         make_block (a + n) (b.size - n) true ∈ (no_lock_alloc n c).2)
  | [], a => by
    intro h
    exact absurd h (by simp [no_lock_alloc])
  | b :: rest, a => by
    intro h
    by_cases hc : b.free = true ∧ n ≤ b.size
    · simp only [no_lock_alloc, if_pos hc] at h ⊢
      have hba : b.ptr = a := by
        simpa using h
      subst hba
      refine ⟨by simp, b, List.mem_cons_self b rest, rfl, hc.1, hc.2, ?_⟩
      exact List.mem_cons_of_mem _ (List.mem_cons_self _ _)
    · simp only [no_lock_alloc, if_neg hc] at h ⊢
      have ih := C10_split_always n rest a h
      refine ⟨by simp [ih.1], ?_⟩
      obtain ⟨b2, hb2, hptr, hfree, hsize, hmem⟩ := ih.2
      exact ⟨b2, List.mem_cons_of_mem b hb2, hptr, hfree, hsize,
        List.mem_cons_of_mem b hmem⟩

/-- Witness for C10 at an exact fit: allocating the whole fresh pool
still grows the chain to two descriptors and leaves a zero-length free
descriptor at offset 100. -/
theorem C10_split_always_witness :
    (no_lock_alloc 100 (mem_init 100)).2.length = (mem_init 100).length + 1 ∧
    ∃ b ∈ mem_init 100, b.ptr = 0 ∧ b.free = true ∧ 100 ≤ b.size ∧
      make_block (0 + 100) (b.size - 100) true ∈ (no_lock_alloc 100 (mem_init 100)).2 :=
  C10_split_always 100 (mem_init 100) 0 rfl

/-- C7: when the descriptor `mem_resize` locates for the address (the
first descriptor in the chain carrying that address) describes an
allocated block whose current size is at least the requested size, the
call returns the same address and leaves the descriptor chain and the
pool memory contents untouched. -/
theorem C7_resize_noop (a n : Nat) (c : Chain) (m : Mem) (b : Block)
    (hf : findBlock a c = some b) (hused : b.free = false) (hn : n ≤ b.size) :
    mem_resize a n c m = .ok (some a, c, m) := by
  simp only [mem_resize, hf, if_pos hn]

/-- Witness for C7: shrinking the 10-byte block at address 0 to 5 bytes
returns address 0 with the chain and memory unchanged. -/
theorem C7_resize_noop_witness :
    mem_resize 0 5 [⟨0, 10, false⟩, ⟨10, 90, true⟩] m0 =
      .ok (some 0, [⟨0, 10, false⟩, ⟨10, 90, true⟩], m0) :=
  C7_resize_noop 0 5 [⟨0, 10, false⟩, ⟨10, 90, true⟩] m0 ⟨0, 10, false⟩ rfl rfl
    (by decide)

/-- A free scan skips a prefix in which no descriptor carries the freed
address. -/
theorem no_lock_free_append (a : Nat) :
    ∀ (c1 rest : Chain), (∀ b ∈ c1, b.ptr ≠ a) →
      no_lock_free a (c1 ++ rest) = c1 ++ no_lock_free a rest
  | [], _ => fun _ => rfl
  | b :: c1, rest => by
    intro h
    have hb : b.ptr ≠ a := h b (List.mem_cons_self _ _)
    have ih := no_lock_free_append a c1 rest (fun x hx => h x (List.mem_cons_of_mem b hx))
    simp only [List.cons_append, no_lock_free, if_neg hb]
    exact congrArg (fun t => b :: t) ih

/-- An allocation scan skips a prefix in which no descriptor is free
with sufficient size. -/
theorem no_lock_alloc_append (n : Nat) :
    ∀ (c1 rest : Chain), (∀ b ∈ c1, ¬(b.free = true ∧ n ≤ b.size)) →
      no_lock_alloc n (c1 ++ rest) =
        ((no_lock_alloc n rest).1, c1 ++ (no_lock_alloc n rest).2)
  | [], _ => fun _ => rfl
  | b :: c1, rest => by
    intro h
    have hb := h b (List.mem_cons_self _ _)
    have ih := no_lock_alloc_append n c1 rest (fun x hx => h x (List.mem_cons_of_mem b hx))
    simp only [List.cons_append, no_lock_alloc, if_neg hb]
    rw [show no_lock_alloc n (c1.append rest) = no_lock_alloc n (c1 ++ rest) from rfl, ih]

/-- C5 (counterexample): `init 100; alloc 10 (addr 0); alloc 10
(addr 10); free 0; free 10` frees the two chain-adjacent allocated
blocks lower-address first.  Freeing never merges with the predecessor,
so no descriptor of size 20 exists afterwards (block 0 stays size 10
while block 10 merged forward with the 80-byte tail into 90), and a
subsequent allocate of size 20 returns address 10, not the lower
address 0. -/
theorem C5_counterexample :
    no_lock_free 10 (no_lock_free 0
        (no_lock_alloc 10 (no_lock_alloc 10 (mem_init 100)).2).2) =
      [⟨0, 10, true⟩, ⟨10, 90, true⟩] ∧
    (no_lock_alloc 20 [⟨0, 10, true⟩, ⟨10, 90, true⟩]).1 = some 10 := by
  exact ⟨rfl, rfl⟩

/-- C5 (amended): for two chain-adjacent allocated blocks `A` (lower
address) and `B`, freed successor-first (`B` then `A`), provided the
block after `B` is absent or still allocated, the two descriptors merge
into one free descriptor at `A`'s address whose size is the sum of
their sizes; and when no earlier free descriptor can satisfy that
merged size, a subsequent allocate request for exactly the merged size
succeeds and returns the lower address `A.ptr`. -/
theorem C5_amended_merge (c1 c2 : Chain) (A B : Block)
    (hA : A.free = false) (hB : B.free = false)
    (hlow : A.ptr < B.ptr)
    (h1 : ∀ b ∈ c1, b.ptr ≠ A.ptr ∧ b.ptr ≠ B.ptr)
    (h2 : ∀ (b2 : Block) (rest2 : Chain), c2 = b2 :: rest2 → b2.free = false)
    (h3 : ∀ b ∈ c1, b.free = true → b.size < A.size + B.size) :
    no_lock_free A.ptr (no_lock_free B.ptr (c1 ++ A :: B :: c2)) =
      c1 ++ make_block A.ptr (A.size + B.size) true :: c2 ∧
    (no_lock_alloc (A.size + B.size)
        (c1 ++ make_block A.ptr (A.size + B.size) true :: c2)).1 = some A.ptr := by
  have hAB : A.ptr ≠ B.ptr := Nat.ne_of_lt hlow
  have step1 : no_lock_free B.ptr (c1 ++ A :: B :: c2) =
      c1 ++ A :: make_block B.ptr B.size true :: c2 := by
    rw [no_lock_free_append B.ptr c1 _ (fun b hb => (h1 b hb).2)]
    congr 1
    cases c2 with
    | nil =>
      simp [no_lock_free, if_neg hAB, hB]
    | cons b2 rest2 =>
      have hb2 : b2.free = false := h2 b2 rest2 rfl
      simp [no_lock_free, if_neg hAB, hb2]
  have step2 : no_lock_free A.ptr (c1 ++ A :: make_block B.ptr B.size true :: c2) =
      c1 ++ make_block A.ptr (A.size + B.size) true :: c2 := by
    rw [no_lock_free_append A.ptr c1 _ (fun b hb => (h1 b hb).1)]
    congr 1
    simp [no_lock_free, make_block]
  have step3 : (no_lock_alloc (A.size + B.size)
      (c1 ++ make_block A.ptr (A.size + B.size) true :: c2)).1 = some A.ptr := by
    have hno : ∀ b ∈ c1, ¬(b.free = true ∧ A.size + B.size ≤ b.size) := by
      intro b hb hcontra
      exact absurd hcontra.2 (Nat.not_le.2 (h3 b hb hcontra.1))
    rw [no_lock_alloc_append (A.size + B.size) c1 _ hno]
    simp [no_lock_alloc, make_block]
  exact ⟨step1 ▸ step2, step3⟩

/-- Witness for C5 (amended): blocks at 0 and 10 of size 10 each, both
used, followed by a used 80-byte block; freeing 10 then 0 produces one
free 20-byte descriptor at 0, and allocating 20 returns address 0. -/
theorem C5_amended_merge_witness :
    no_lock_free 0 (no_lock_free 10
        [Block.mk 0 10 false, Block.mk 10 10 false, Block.mk 20 80 false]) =
      [Block.mk 0 20 true, Block.mk 20 80 false] ∧
    (no_lock_alloc 20 [Block.mk 0 20 true, Block.mk 20 80 false]).1 = some 0 :=
  C5_amended_merge [] [Block.mk 20 80 false] (Block.mk 0 10 false) (Block.mk 10 10 false)
    rfl rfl (by decide) (by simp)
    (fun b2 rest2 h => by cases h; rfl) (by simp)

/-- Freeing an address that matches no descriptor leaves the chain
unchanged: the scan loop falls off the end without mutating anything. -/
theorem no_lock_free_not_found (a : Nat) :
    ∀ (c : Chain), (∀ b ∈ c, b.ptr ≠ a) → no_lock_free a c = c
  | [] => fun _ => rfl
  | b :: rest => by
    intro h
    have hb : b.ptr ≠ a := h b (List.mem_cons_self b rest)
    have ih := no_lock_free_not_found a rest (fun x hx => h x (List.mem_cons_of_mem b hx))
    simp only [no_lock_free, if_neg hb]
    rw [ih]

/-- C4 (counterexample): freeing address 7, which is no descriptor's
address in the freshly initialised pool of 100 bytes, returns the chain
unchanged; `mem_free` is void in the C source, so no `BlockNotFound`
error is reported — the call silently does nothing. -/
theorem C4_counterexample : mem_free 7 (mem_init 100) = mem_init 100 := rfl

/-- C4 (amended): `free(address)` on an address that equals no
descriptor's address leaves the pool state unchanged and reports
nothing (a silent no-op; the C function returns void and has no error
channel). -/
theorem C4_amended_silent_noop (a : Nat) (c : Chain) (h : ∀ b ∈ c, b.ptr ≠ a) :
    mem_free a c = c :=
  no_lock_free_not_found a c h

/-- Witness for C4 (amended) at a one-descriptor chain and address 5. -/
theorem C4_amended_silent_noop_witness :
    mem_free 5 [⟨0, 10, false⟩] = [⟨0, 10, false⟩] :=
  C4_amended_silent_noop 5 [⟨0, 10, false⟩] (by decide)

/-- C3: with a pool of 8 bytes, which cannot satisfy the 16-byte node
allocation, `list_insert` hits the unchecked NULL returned by
`mem_alloc` — the C code stores `node->data = data` through it, a null
dereference modelled as `Except.error ()` — instead of propagating an
`AllocationExhausted` result; the inner allocation indeed fails, as the
second conjunct shows. -/
theorem C3_insert_null_deref :
    list_insert (mem_init 8) [] 5 = .error () ∧
    mem_alloc sizeofNode (mem_init 8) = (none, mem_init 8) :=
  ⟨rfl, rfl⟩

/-- C6: resizing address 5 — no descriptor's address in the freshly
initialised pool of 100 bytes — makes `mem_resize` dereference the null
`current_block` pointer (`current_block->size` after the failed scan),
modelled as `Except.error ()`, instead of reporting `BlockNotFound`. -/
theorem C6_resize_null_deref : mem_resize 5 10 (mem_init 100) m0 = .error () := rfl

/-- C9: searching 3 in the list [1, 2] prints "data not in list" on the
console before returning NULL, so `list_search` is not output-free as
the claim requires; the functional part of the claim does hold — the
second conjunct shows the first matching node (index 1 in [7, 5, 5]) is
returned with no output. -/
theorem C9_search_prints :
    list_search [1, 2] 3 = (none, ["data not in list"]) ∧
    list_search [7, 5, 5] 5 = (some 1, []) :=
  ⟨rfl, rfl⟩

/-- A failed allocation scan leaves the chain unchanged. -/
theorem alloc_fail_chain (n : Nat) :
    ∀ (c : Chain), (no_lock_alloc n c).1 = none → (no_lock_alloc n c).2 = c
  | [] => fun _ => rfl
  | b :: rest => by
    intro h
    by_cases hc : b.free = true ∧ n ≤ b.size
    · simp [no_lock_alloc, hc] at h
    · simp only [no_lock_alloc, if_neg hc] at h ⊢
      rw [alloc_fail_chain n rest h]

/-- `findBlock` only returns a descriptor carrying the searched
address. -/
theorem findBlock_ptr (a : Nat) :
    ∀ (c : Chain) (b : Block), findBlock a c = some b → b.ptr = a
  | [] => by
    intro b h
    exact absurd h (by simp [findBlock])
  | x :: rest => by
    intro b h
    by_cases hx : x.ptr = a
    · rw [findBlock, if_pos hx] at h
      cases h
      exact hx
    · rw [findBlock, if_neg hx] at h
      exact findBlock_ptr a rest b h

/-- An allocation that succeeds at some other descriptor, and whose
leftover descriptor is not placed at address `a`, does not disturb which
descriptor `findBlock` locates first at `a` (given that descriptor is
allocated). -/
theorem findBlock_alloc (n a : Nat) :
    ∀ (c : Chain) (b : Block) (p : Nat), findBlock a c = some b → b.free = false →
      (no_lock_alloc n c).1 = some p → p + n ≠ a →
      findBlock a (no_lock_alloc n c).2 = some b
  | [] => by
    intro b p hf
    exact absurd hf (by simp [findBlock])
  | x :: rest => by
    intro b p hf hused hp hne
    by_cases hc : x.free = true ∧ n ≤ x.size
    · have hxa : x.ptr ≠ a := by
        intro hxa
        rw [findBlock, if_pos hxa] at hf
        cases hf
        exact absurd hc.1 (by simp [hused])
      have hf2 : findBlock a rest = some b := by
        rw [findBlock, if_neg hxa] at hf
        exact hf
      simp only [no_lock_alloc, if_pos hc] at hp ⊢
      have hpx : x.ptr = p := by simpa using hp
      have hna : x.ptr + n ≠ a := by omega
      simp only [findBlock, make_block, if_neg hxa, if_neg hna]
      exact hf2
    · simp only [no_lock_alloc, if_neg hc] at hp ⊢
      by_cases hxa : x.ptr = a
      · rw [findBlock, if_pos hxa] at hf
        simp only [findBlock, if_pos hxa]
        exact hf
      · rw [findBlock, if_neg hxa] at hf
        have ih := findBlock_alloc n a rest b p hf hused hp hne
        simp only [findBlock, if_neg hxa]
        exact ih

/-- After freeing an address that some descriptor carries, the first
descriptor at that address is free. -/
theorem free_found_becomes_free (a : Nat) :
    ∀ (c : Chain) (b : Block), findBlock a c = some b →
      ∃ b2, findBlock a (no_lock_free a c) = some b2 ∧ b2.free = true ∧ b2.ptr = a
  | [] => by
    intro b h
    exact absurd h (by simp [findBlock])
  | x :: rest => by
    intro b hf
    by_cases hxa : x.ptr = a
    · cases rest with
      | nil =>
        refine ⟨make_block x.ptr x.size true, ?_, rfl, hxa⟩
        simp [no_lock_free, if_pos hxa, findBlock, make_block, hxa]
      | cons b2 rest2 =>
        by_cases hb2 : b2.free = true
        · refine ⟨make_block x.ptr (x.size + b2.size) true, ?_, rfl, hxa⟩
          simp [no_lock_free, if_pos hxa, hb2, findBlock, make_block, hxa]
        · refine ⟨make_block x.ptr x.size true, ?_, rfl, hxa⟩
          simp [no_lock_free, if_pos hxa, hb2, findBlock, make_block, hxa]
    · rw [findBlock, if_neg hxa] at hf
      obtain ⟨b2, hfind, hfree, hptr⟩ := free_found_becomes_free a rest b hf
      refine ⟨b2, ?_, hfree, hptr⟩
      simp only [no_lock_free, if_neg hxa, findBlock]
      exact hfind

/-- C8 (counterexample): from `init 100; alloc 20 (addr 0); alloc 10
(addr 20); free 0`, the call `resize(20, 20)` succeeds and returns the
fresh address 0, but the inner allocation is an exact fit of the free
block chain-adjacent before the old block, so its zero-size leftover
descriptor lands at address 20 ahead of the old descriptor; the
subsequent free marks that zero-size descriptor instead, and the old
block's descriptor `⟨20, 10, used⟩` is still allocated afterwards — the
old address does not become free. -/
theorem C8_counterexample :
    exChain (mem_resize 20 20
        (no_lock_free 0 (no_lock_alloc 10 (no_lock_alloc 20 (mem_init 100)).2).2) m0) =
      some [⟨0, 20, false⟩, ⟨20, 0, true⟩, ⟨20, 10, false⟩, ⟨30, 70, true⟩] ∧
    exAddr (mem_resize 20 20
        (no_lock_free 0 (no_lock_alloc 10 (no_lock_alloc 20 (mem_init 100)).2).2) m0) =
      some (some 0) :=
  ⟨rfl, rfl⟩

/-- C8 (amended): for a located allocated descriptor smaller than the
requested size, when the inner allocation fails `mem_resize` returns the
NULL/`AllocationExhausted` result with the chain and memory untouched
(no copy, no free); when the inner allocation succeeds at address `p`
and its leftover descriptor does not land at the old address
(`p + n ≠ a`), the call returns `p`, the first old-size bytes at `p`
equal the old block's bytes, and the first descriptor at the old
address is free afterwards. -/
theorem C8_amended_grow (a n : Nat) (c : Chain) (m : Mem) (b : Block)
    (hf : findBlock a c = some b) (hused : b.free = false) (hlt : b.size < n) :
    ((no_lock_alloc n c).1 = none → mem_resize a n c m = .ok (none, c, m)) ∧
    (∀ p, (no_lock_alloc n c).1 = some p → p + n ≠ a →
      mem_resize a n c m =
        .ok (some p, no_lock_free a (no_lock_alloc n c).2, memcpy p a b.size m) ∧
      (∀ k, k < b.size → memcpy p a b.size m (p + k) = m (a + k)) ∧
      (∃ b2, findBlock a (no_lock_free a (no_lock_alloc n c).2) = some b2 ∧
        b2.free = true ∧ b2.ptr = a)) := by
  have hnle : ¬ n ≤ b.size := Nat.not_le.2 hlt
  constructor
  · intro hnone
    have hchain := alloc_fail_chain n c hnone
    have hsplit : no_lock_alloc n c = (none, c) := by
      rw [show no_lock_alloc n c = ((no_lock_alloc n c).1, (no_lock_alloc n c).2) from rfl,
        hnone, hchain]
    simp only [mem_resize, hf, if_neg hnle, hsplit]
  · intro p hp hne
    have hsplit : no_lock_alloc n c = (some p, (no_lock_alloc n c).2) := by
      rw [show no_lock_alloc n c = ((no_lock_alloc n c).1, (no_lock_alloc n c).2) from rfl,
        hp]
    refine ⟨?_, ?_, ?_⟩
    · rw [mem_resize, hf]
      simp only [if_neg hnle]
      rw [hsplit]
    · intro k hk
      simp only [memcpy]
      rw [if_pos ⟨Nat.le_add_right p k, by omega⟩]
      congr 1
      omega
    · exact free_found_becomes_free a _ b (findBlock_alloc n a c b p hf hused hp hne)

/-- Witness for C8 (amended): growing the used 10-byte block at
address 0 to 20 bytes in a pool whose tail is free relocates it to
address 10, copies the 10 old bytes and frees address 0. -/
theorem C8_amended_grow_witness :
    mem_resize 0 20 [⟨0, 10, false⟩, ⟨10, 90, true⟩] m0 =
      .ok (some 10,
        no_lock_free 0 (no_lock_alloc 20 [⟨0, 10, false⟩, ⟨10, 90, true⟩]).2,
        memcpy 10 0 10 m0) ∧
    (∀ k, k < 10 → memcpy 10 0 10 m0 (10 + k) = m0 (0 + k)) ∧
    (∃ b2, findBlock 0 (no_lock_free 0
        (no_lock_alloc 20 [⟨0, 10, false⟩, ⟨10, 90, true⟩]).2) = some b2 ∧
      b2.free = true ∧ b2.ptr = 0) :=
  (C8_amended_grow 0 20 [⟨0, 10, false⟩, ⟨10, 90, true⟩] m0 ⟨0, 10, false⟩
    rfl rfl (by decide)).2 10 rfl (by decide)

end MM
